import Mathlib

/-!
Verification development for the go-quai block-sealing worker
(`core/worker.go` and `core/core.go`).

Shallow embedding conventions:
* hashes, addresses, state roots and opaque values are natural numbers;
* the `StateDB` handle is an opaque value (`ℕ`); for the snapshot-aliasing
  claims it is instead a reference into an explicit heap (`StateHeap`);
* external collaborators whose code lives outside `core/worker.go`
  (`ApplyTransaction`, the price-and-nonce iterator, the consensus engine's
  seal-hash) are oracles: function parameters or data carried by the inputs;
* Go `float64` arithmetic is modelled over `ℚ`, with the `int64(...)`
  conversion modelled as truncation toward zero;
* Go `uint64` subtraction is modelled with an explicit wrap modulo `2^64`;
* channel sends (the resubmit-adjust feedback, the pending-logs feed) are
  modelled as explicit output lists of the functions that perform them.
-/

namespace GoQuaiWorker

/-- Source `params.TxGas`: the intrinsic gas of a plain transaction. -/
def TxGas : ℕ := 21000

/-- Source `commitInterruptNone` (worker.go line 136). -/
def commitInterruptNone : ℕ := 0

/-- Source `commitInterruptNewHead` (worker.go line 137). -/
def commitInterruptNewHead : ℕ := 1

/-- Source `commitInterruptResubmit` (worker.go line 138). -/
def commitInterruptResubmit : ℕ := 2

/-- A transaction: an identifier plus the `Protected()` flag consulted by
`commitTransactions` for the replay-protection check. -/
structure Tx where
  id : ℕ
  isProtected : Bool
deriving DecidableEq

/-- A receipt: its logs (log identifiers) and gas used. -/
structure Receipt where
  logs : List ℕ
  gasUsed : ℕ
deriving DecidableEq

/-- A block header.  The Go header carries per-context arrays of length 3;
every access in `worker.go` reads the single `types.QuaiNetworkContext`
slot, so the model carries just that slot of each field.  `hashVal` stands
for `Header.Hash()`. -/
structure Header where
  parentHash : ℕ
  number : ℕ
  gasLimit : ℕ
  gasUsed : ℕ
  hashVal : ℕ
deriving DecidableEq

/-- Source `Header.Hash()`. -/
def Header.hash (h : Header) : ℕ := h.hashVal

/-- The worker's `environment` (worker.go lines 63-79). `state` is the
opaque working-state value; `uncles` is the `map[common.Hash]*types.Header`
as an association list; `ancestors` and `family` are the two `mapset.Set`s
as lists. -/
structure Environment where
  signer : ℕ
  state : ℕ
  ancestors : List ℕ
  family : List ℕ
  tcount : ℕ
  gasPool : Option ℕ
  coinbase : ℕ
  header : Header
  txs : List Tx
  receipts : List Receipt
  uncles : List (ℕ × Header)
  externalGasUsed : ℕ
  externalBlockLength : ℕ
deriving DecidableEq

/-- Source `env.gasPool.Gas()`; total, with `0` for the nil pool (a nil pool is
never dereferenced on the paths the claims exercise, because
`commitTransactions` allocates it on entry). -/
def poolGas (env : Environment) : ℕ := env.gasPool.getD 0

/-- Source `copyReceipts` (worker.go lines 1196-1203): a fresh slice whose cells
copy each receipt struct; receipts are plain values in this model. -/
def copyReceipts (receipts : List Receipt) : List Receipt :=
  receipts.map (fun r => r)

/-- Source `environment.unclelist` (worker.go lines 109-115). -/
def Environment.unclelist (env : Environment) : List Header :=
  env.uncles.map Prod.snd

/-- Source `environment.copy` (worker.go lines 82-106).  Note the source copies
neither `externalGasUsed` nor `externalBlockLength`, so they restart at the
Go zero value. -/
def Environment.copy (env : Environment) : Environment :=
  { signer := env.signer
    state := env.state
    ancestors := env.ancestors
    family := env.family
    tcount := env.tcount
    gasPool := env.gasPool
    coinbase := env.coinbase
    header := env.header
    txs := env.txs
    receipts := copyReceipts env.receipts
    uncles := env.uncles
    externalGasUsed := 0
    externalBlockLength := 0 }

/-- Source `makeEnv` (worker.go lines 734-775), restricted to the pure
construction of the environment: the state handle obtained from the
processor is the parameter `state`, and `ancestorBlocks` is the list of
blocks returned by `GetBlocksFromHash(parent.Hash(), 7)`, each as its hash
paired with its uncle hashes. -/
def makeEnv (signer : ℕ) (state : ℕ) (header : Header) (coinbase : ℕ)
    (ancestorBlocks : List (ℕ × List ℕ)) : Environment :=
  { signer := signer
    state := state
    coinbase := coinbase
    ancestors := ancestorBlocks.map Prod.fst
    family := ancestorBlocks.foldl (fun acc a => acc ++ a.2 ++ [a.1]) []
    tcount := 0
    gasPool := none
    header := header
    txs := []
    receipts := []
    uncles := []
    externalGasUsed := 0
    externalBlockLength := 0 }

/-- The four error messages `commitUncle` can return, as an inductive. -/
inductive UncleErr where
  | notUnique
  | isSibling
  | parentUnknown
  | alreadyIncluded
deriving DecidableEq

/-- Key membership in the `uncles` map. -/
def unclesContains (uncles : List (ℕ × Header)) (k : ℕ) : Bool :=
  uncles.any (fun p => p.1 = k)

/-- Source `commitUncle` (worker.go lines 778-794). -/
def commitUncle (env : Environment) (uncle : Header) : Environment × Option UncleErr :=
  let hash := uncle.hash
  if unclesContains env.uncles hash then
    (env, some .notUnique)
  else if env.header.parentHash = uncle.parentHash then
    (env, some .isSibling)
  else if ¬ (uncle.parentHash ∈ env.ancestors) then
    (env, some .parentUnknown)
  else if uncle.hash ∈ env.family then
    (env, some .alreadyIncluded)
  else
    ({ env with uncles := env.uncles ++ [(hash, uncle)] }, none)

/-! ## Recommit-interval arithmetic (worker.go lines 41-59, 386-405, 482-497) -/

/-- Source `minRecommitInterval = 1 * time.Second`, in nanoseconds. -/
def minRecommitInterval : ℤ := 1000000000

/-- Source `maxRecommitInterval = 15 * time.Second`, in nanoseconds. -/
def maxRecommitInterval : ℤ := 15 * 1000000000

/-- Source `intervalAdjustRatio = 0.1`. -/
def intervalAdjustRatio : ℚ := 1 / 10

/-- Source `intervalAdjustBias = 200 * 1000.0 * 1000.0` nanoseconds (200 ms). -/
def intervalAdjustBias : ℚ := 200 * 1000 * 1000

/-- Go's `int64(x)` conversion of a `float64`: truncation toward zero,
modelled exactly on `ℚ`. -/
def int64FromFloat (q : ℚ) : ℤ :=
  if 0 ≤ q then ⌊q⌋ else ⌈q⌉

/-- Source `recalcRecommit` (worker.go lines 386-405). Durations are `int64`
nanoseconds; the float arithmetic is carried out in `ℚ`. -/
def recalcRecommit (minRecommit prev : ℤ) (target : ℚ) (inc : Bool) : ℤ :=
  let prevF : ℚ := prev
  let next : ℚ :=
    if inc then
      let n := prevF * (1 - intervalAdjustRatio) + intervalAdjustRatio * (target + intervalAdjustBias)
      if n > (maxRecommitInterval : ℚ) then (maxRecommitInterval : ℚ) else n
    else
      let n := prevF * (1 - intervalAdjustRatio) + intervalAdjustRatio * (target - intervalAdjustBias)
      if n < (minRecommit : ℚ) then (minRecommit : ℚ) else n
  int64FromFloat next

/-- A message on `resubmitAdjustCh` (worker.go lines 156-159). -/
structure IntervalAdjust where
  ratio : ℚ
  inc : Bool
deriving DecidableEq

/-- The `case adjust := <-w.resubmitAdjustCh` handler of `newWorkLoop`
(worker.go lines 482-497), as a function of the loop state
`(minRecommit, recommit)` and the received feedback. -/
def resubmitAdjustStep (minRecommit recommit : ℤ) (adjust : IntervalAdjust) : ℤ :=
  if adjust.inc then
    recalcRecommit minRecommit recommit ((recommit : ℚ) / adjust.ratio) true
  else
    recalcRecommit minRecommit recommit ((minRecommit : ℚ)) false

/-- The resubmit loop's `recommit` after processing a sequence of feedback
events. -/
def resubmitAdjustRun (minRecommit recommit : ℤ) (adjusts : List IntervalAdjust) : ℤ :=
  adjusts.foldl (resubmitAdjustStep minRecommit) recommit

/-- The recommit sanitization in `newWorker` (worker.go lines 275-280):
raise a too-short configured interval to `minRecommitInterval`. -/
def sanitizeRecommit (configRecommit : ℤ) : ℤ :=
  if configRecommit < minRecommitInterval then minRecommitInterval else configRecommit

/-! ## Transaction execution (worker.go lines 812-939) -/

/-- The error classes distinguished by the `switch` in `commitTransactions`
(via `errors.Is`): the four named sentinel errors of the `core` package,
the `commitTransaction` nil-transaction error, and any other error. -/
inductive TxError where
  | gasLimitReached
  | nonceTooLow
  | nonceTooHigh
  | txTypeNotSupported
  | txNotFound
  | other (code : ℕ)
deriving DecidableEq

/-- The outcome of `ApplyTransaction` (external to worker.go): either a
receipt with the state and gas pool it leaves behind, or an error class
with the (possibly half-mutated) state and the gas pool it leaves behind.
`commitTransaction` is responsible for reverting the state on error. -/
inductive ApplyResult where
  | ok (state' : ℕ) (pool' : ℕ) (receipt : Receipt)
  | err (e : TxError) (state' : ℕ) (pool' : ℕ)
deriving DecidableEq

/-- The `ApplyTransaction` oracle: a function of the working state, the gas
pool and the transaction.  The chain config, header and coinbase are fixed
for one `commitTransactions` round and folded into the oracle. -/
def ApplyFn : Type := ℕ → ℕ → Tx → ApplyResult

/-- Source `commitTransaction` (worker.go lines 812-826): snapshot, apply, revert
the state (only) on error, append the transaction and its receipt on
success.  The snapshot/revert pair of `StateDB` is modelled by restoring
the pre-call state value. -/
def commitTransaction (A : ApplyFn) (env : Environment) (tx : Option Tx) :
    Environment × Except TxError (List ℕ) :=
  match tx with
  | some tx =>
    let snap := env.state
    match A env.state (poolGas env) tx with
    | .err e _state' pool' =>
      ({ env with state := snap, gasPool := some pool' }, .error e)
    | .ok state' pool' receipt =>
      ({ env with
          state := state'
          gasPool := some pool'
          txs := env.txs ++ [tx]
          receipts := env.receipts ++ [receipt] },
       .ok receipt.logs)
  | none => (env, .error .txNotFound)

/-- Modelled from the spec: `types.TransactionsByPriceAndNonce` (its source
is outside `src/`).  Per the collaborator contract (§6 of the spec) it
supports `Peek` (best transaction), `Shift` (advance to the same sender's
next nonce) and `Pop` (drop the sender's remaining bucket).  The heap
ordering across senders is abstracted into a fixed bucket order, which the
claims do not depend on. -/
structure TransactionsByPriceAndNonce where
  buckets : List (List Tx)
deriving DecidableEq

namespace TransactionsByPriceAndNonce

/-- Operation `Peek`. -/
def peek (t : TransactionsByPriceAndNonce) : Option Tx :=
  match t.buckets with
  | [] => none
  | b :: _ => b.head?

/-- Operation `Shift`: drop the head of the current best bucket, removing the bucket
when it empties. -/
def shift (t : TransactionsByPriceAndNonce) : TransactionsByPriceAndNonce :=
  match t.buckets with
  | [] => t
  | b :: rest =>
    match b with
    | [] => ⟨rest⟩
    | _ :: tail => if tail.isEmpty then ⟨rest⟩ else ⟨tail :: rest⟩

/-- Operation `Pop`: drop the whole current best bucket. -/
def pop (t : TransactionsByPriceAndNonce) : TransactionsByPriceAndNonce :=
  match t.buckets with
  | [] => t
  | _ :: rest => ⟨rest⟩

/-- Total number of transactions left in the iterator. -/
def size (t : TransactionsByPriceAndNonce) : ℕ :=
  (t.buckets.map List.length).sum

theorem size_pop_lt_of_peek (t : TransactionsByPriceAndNonce) (tx : Tx)
    (h : t.peek = some tx) : t.pop.size < t.size := by
  rcases t with ⟨buckets⟩
  cases buckets with
  | nil => simp [peek] at h
  | cons b rest =>
    cases b with
    | nil => simp [peek] at h
    | cons x xs => simp [peek, pop, size]

theorem size_shift_lt_of_peek (t : TransactionsByPriceAndNonce) (tx : Tx)
    (h : t.peek = some tx) : t.shift.size < t.size := by
  rcases t with ⟨buckets⟩
  cases buckets with
  | nil => simp [peek] at h
  | cons b rest =>
    cases b with
    | nil => simp [peek] at h
    | cons x xs =>
      by_cases hxs : xs.isEmpty <;> simp [peek, shift, size, hxs]

end TransactionsByPriceAndNonce

/-- Which iterator operation a loop iteration applied. -/
inductive IterOp where
  | pop
  | shift
deriving DecidableEq

/-- One executed transaction in a `commitTransactions` round: the error
class `errors.Is` saw (`none` for success), the iterator operation that
followed, and the logs collected (empty except on success). -/
structure TraceEntry where
  err : Option TxError
  op : IterOp
  logs : List ℕ
deriving DecidableEq

/-- The observable result of one `commitTransactions` call: the mutated
environment and iterator, the returned boolean, the interrupt signal that
stopped the loop (`none` when the loop exited normally), the messages sent
on `resubmitAdjustCh`, the per-transaction trace, the coalesced logs, and
the copy published on `pendingLogsFeed` (if any). -/
structure CommitResult where
  env : Environment
  txs : TransactionsByPriceAndNonce
  ret : Bool
  stopSig : Option ℕ
  adjusts : List IntervalAdjust
  trace : List TraceEntry
  logs : List ℕ
  pendingLogs : Option (List ℕ)
deriving DecidableEq

/-- Go `uint64` subtraction `a - b`, wrapping modulo `2^64` (for operands
below `2^64`). -/
def uint64Sub (a b : ℕ) : ℕ :=
  (((a : ℤ) - (b : ℤ)) % (2 ^ 64 : ℤ)).toNat

/-- The fill-ratio computation of the resubmit-interrupt branch
(worker.go lines 845-848): `(gasLimit - gasPool.Gas()) / gasLimit` as
float64, raised to `0.1` when below it. -/
def fillRatio (gasLimit pool : ℕ) : ℚ :=
  let ratio : ℚ := (uint64Sub gasLimit pool : ℚ) / (gasLimit : ℚ)
  if ratio < 1 / 10 then 1 / 10 else ratio

/-- The code after the loop of `commitTransactions` (worker.go lines
918-938): publish a deep copy of the coalesced logs when not sealing, and
send the `inc:false` feedback when the caller passed an interrupt
pointer. -/
def commitTxsExit (running : Bool) (interrupt : Option (ℕ → ℕ))
    (env : Environment) (txs : TransactionsByPriceAndNonce)
    (coalescedLogs : List ℕ) (adjusts : List IntervalAdjust)
    (trace : List TraceEntry) : CommitResult :=
  let pendingLogs : Option (List ℕ) :=
    if !running && !coalescedLogs.isEmpty then some coalescedLogs else none
  let adjusts' :=
    if interrupt.isSome then adjusts ++ [⟨0, false⟩] else adjusts
  ⟨env, txs, false, none, adjusts', trace, coalescedLogs, pendingLogs⟩

/-- The value the atomic loads of `*interrupt` observe during iteration
`i` of the `commitTransactions` loop.  The cell is written concurrently by
`newWorkLoop`; it is modelled as a function of the iteration index (one
value per iteration, so the three loads of an iteration agree). A nil
interrupt pointer reads as `commitInterruptNone`, matching the short-
circuit of the `interrupt != nil &&` guard. -/
def interruptSignal (interrupt : Option (ℕ → ℕ)) (i : ℕ) : ℕ :=
  match interrupt with
  | some f => f i
  | none => commitInterruptNone

/-- The `for` loop of `commitTransactions` (worker.go lines 835-916).

`fuel` is a structural-recursion bound; every recursive step consumes at
least one transaction from the iterator, so the wrapper's `size + 1` never
runs out (the fuel-exhausted arm is unreachable from the wrapper). -/
def commitTxsLoop (A : ApplyFn) (isEIP155 : ℕ → Bool) (running : Bool)
    (gasLimit : ℕ) (fuel : ℕ) (env : Environment)
    (txs : TransactionsByPriceAndNonce) (interrupt : Option (ℕ → ℕ))
    (i : ℕ) (coalescedLogs : List ℕ) (adjusts : List IntervalAdjust)
    (trace : List TraceEntry) : CommitResult :=
  match fuel with
  | 0 => commitTxsExit running interrupt env txs coalescedLogs adjusts trace
  | fuel + 1 =>
    if interruptSignal interrupt i ≠ commitInterruptNone then
      let adjusts' :=
        if interruptSignal interrupt i = commitInterruptResubmit then
          adjusts ++ [⟨fillRatio gasLimit (poolGas env), true⟩]
        else adjusts
      ⟨env, txs, interruptSignal interrupt i == commitInterruptNewHead,
       some (interruptSignal interrupt i), adjusts', trace, coalescedLogs, none⟩
    else if poolGas env < TxGas then
      commitTxsExit running interrupt env txs coalescedLogs adjusts trace
    else
      match txs.peek with
      | none => commitTxsExit running interrupt env txs coalescedLogs adjusts trace
      | some tx =>
        if tx.isProtected && !(isEIP155 env.header.number) then
          commitTxsLoop A isEIP155 running gasLimit fuel env txs.pop interrupt (i + 1)
            coalescedLogs adjusts trace
        else
          match commitTransaction A env (some tx) with
          | (env', .error .gasLimitReached) =>
            commitTxsLoop A isEIP155 running gasLimit fuel env' txs.pop interrupt (i + 1)
              coalescedLogs adjusts (trace ++ [⟨some .gasLimitReached, .pop, []⟩])
          | (env', .error .nonceTooLow) =>
            commitTxsLoop A isEIP155 running gasLimit fuel env' txs.shift interrupt (i + 1)
              coalescedLogs adjusts (trace ++ [⟨some .nonceTooLow, .shift, []⟩])
          | (env', .error .nonceTooHigh) =>
            commitTxsLoop A isEIP155 running gasLimit fuel env' txs.pop interrupt (i + 1)
              coalescedLogs adjusts (trace ++ [⟨some .nonceTooHigh, .pop, []⟩])
          | (env', .ok lgs) =>
            commitTxsLoop A isEIP155 running gasLimit fuel
              { env' with tcount := env'.tcount + 1 } txs.shift interrupt (i + 1)
              (coalescedLogs ++ lgs) adjusts (trace ++ [⟨none, .shift, lgs⟩])
          | (env', .error .txTypeNotSupported) =>
            commitTxsLoop A isEIP155 running gasLimit fuel env' txs.pop interrupt (i + 1)
              coalescedLogs adjusts (trace ++ [⟨some .txTypeNotSupported, .pop, []⟩])
          | (env', .error e) =>
            commitTxsLoop A isEIP155 running gasLimit fuel env' txs.shift interrupt (i + 1)
              coalescedLogs adjusts (trace ++ [⟨some e, .shift, []⟩])

/-- Source `commitTransactions` (worker.go lines 828-939): allocate the gas pool
from the header's gas limit when nil, then run the loop. -/
def commitTransactions (A : ApplyFn) (isEIP155 : ℕ → Bool) (running : Bool)
    (env : Environment) (txs : TransactionsByPriceAndNonce)
    (interrupt : Option (ℕ → ℕ)) : CommitResult :=
  let gasLimit := env.header.gasLimit
  let env :=
    if env.gasPool = none then { env with gasPool := some gasLimit } else env
  commitTxsLoop A isEIP155 running gasLimit (txs.size + 1) env txs interrupt 0 [] [] []

/-- The per-outcome iterator policy as the spec states it (§4.3):
`GasLimitReached`, `NonceTooHigh` and `TxTypeNotSupported` pop, success and
every other error shift.  Defined from the spec's words, to be compared
with the `switch` transcribed inside `commitTxsLoop`. -/
def specIterOp : Option TxError → IterOp
  | some .gasLimitReached => .pop
  | some .nonceTooLow => .shift
  | some .nonceTooHigh => .pop
  | some .txTypeNotSupported => .pop
  | none => .shift
  | some .txNotFound => .shift
  | some (.other _) => .shift

/-- Number of successful executions recorded in a trace. -/
def countSuccess (t : List TraceEntry) : ℕ :=
  (t.filter (fun p => p.err.isNone)).length

theorem countSuccess_cons (p : TraceEntry) (t : List TraceEntry) :
    countSuccess (p :: t) = (if p.err.isNone then 1 else 0) + countSuccess t := by
  by_cases h : p.err.isNone <;>
    simp [countSuccess, List.filter_cons, h, Nat.add_comm]

/-- The invariant the `commitTransactions` loop maintains, relative to the
environment and accumulators at entry: the executed-transaction suffix `t`
of the trace respects the spec's iterator policy, `tcount` and the two
sequences each grow by the number of successes, the coalesced logs are the
successes' logs in order, the returned boolean is `true` exactly on a
new-head stop, a resubmit stop appends exactly one `inc:true` feedback
computed from the final gas pool, any other stop appends none, a normal
exit appends exactly one `inc:false` feedback when an interrupt pointer
was supplied, and a nil interrupt can only exit normally. -/
def LoopInv (gasLimit : ℕ) (interrupt : Option (ℕ → ℕ)) (env : Environment)
    (logs : List ℕ) (adjusts : List IntervalAdjust) (trace : List TraceEntry)
    (r : CommitResult) : Prop :=
  ∃ t, r.trace = trace ++ t
    ∧ (∀ p ∈ t, p.op = specIterOp p.err)
    ∧ r.env.tcount = env.tcount + countSuccess t
    ∧ r.env.txs.length = env.txs.length + countSuccess t
    ∧ r.env.receipts.length = env.receipts.length + countSuccess t
    ∧ r.logs = logs ++ (t.map TraceEntry.logs).flatten
    ∧ (r.ret = true ↔ r.stopSig = some commitInterruptNewHead)
    ∧ (r.stopSig = some commitInterruptResubmit →
        r.adjusts = adjusts ++ [⟨fillRatio gasLimit (poolGas r.env), true⟩])
    ∧ (∀ s, r.stopSig = some s → s ≠ commitInterruptResubmit → r.adjusts = adjusts)
    ∧ (r.stopSig = none →
        r.adjusts = adjusts ++ (if interrupt.isSome then [⟨0, false⟩] else []))
    ∧ (interrupt = none → r.stopSig = none)

theorem commitTxsExit_inv (gasLimit : ℕ) (running : Bool)
    (interrupt : Option (ℕ → ℕ)) (env : Environment)
    (txs : TransactionsByPriceAndNonce) (logs : List ℕ)
    (adjusts : List IntervalAdjust) (trace : List TraceEntry) :
    LoopInv gasLimit interrupt env logs adjusts trace
      (commitTxsExit running interrupt env txs logs adjusts trace) := by
  unfold LoopInv
  refine ⟨[], ?_⟩
  by_cases h : interrupt.isSome <;> simp [commitTxsExit, countSuccess, h]

/-- Extending the loop invariant across one executed transaction. -/
theorem LoopInv.extend (gasLimit : ℕ) (interrupt : Option (ℕ → ℕ))
    (env env1 : Environment) (entry : TraceEntry) (logs logs1 : List ℕ)
    (adjusts : List IntervalAdjust) (trace trace1 : List TraceEntry)
    (r : CommitResult)
    (hconf : entry.op = specIterOp entry.err)
    (htc : env1.tcount = env.tcount + (if entry.err.isNone then 1 else 0))
    (htx : env1.txs.length = env.txs.length + (if entry.err.isNone then 1 else 0))
    (hrc : env1.receipts.length = env.receipts.length + (if entry.err.isNone then 1 else 0))
    (hlogs : logs1 = logs ++ entry.logs)
    (htr : trace1 = trace ++ [entry])
    (h : LoopInv gasLimit interrupt env1 logs1 adjusts trace1 r) :
    LoopInv gasLimit interrupt env logs adjusts trace r := by
  subst hlogs htr
  obtain ⟨t, h1, h2, h3, h4, h5, h6, h7, h8, h9, h10, h11⟩ := h
  refine ⟨entry :: t, ?_, ?_, ?_, ?_, ?_, ?_, h7, h8, h9, h10, h11⟩
  · simpa [List.append_assoc] using h1
  · intro p hp
    rcases List.mem_cons.mp hp with hp | hp
    · exact hp ▸ hconf
    · exact h2 p hp
  · rw [h3, htc, countSuccess_cons]; omega
  · rw [h4, htx, countSuccess_cons]; omega
  · rw [h5, hrc, countSuccess_cons]; omega
  · rw [h6]; simp [List.append_assoc]

/-- Master lemma: the `commitTransactions` loop maintains `LoopInv`
whenever the fuel exceeds the iterator size. -/
theorem commitTxsLoop_spec (A : ApplyFn) (isEIP155 : ℕ → Bool)
    (running : Bool) (gasLimit : ℕ) :
    ∀ (fuel : ℕ) (txs : TransactionsByPriceAndNonce) (env : Environment)
      (interrupt : Option (ℕ → ℕ)) (i : ℕ) (logs : List ℕ)
      (adjusts : List IntervalAdjust) (trace : List TraceEntry),
      txs.size < fuel →
      LoopInv gasLimit interrupt env logs adjusts trace
        (commitTxsLoop A isEIP155 running gasLimit fuel env txs interrupt i
          logs adjusts trace) := by
  intro fuel
  induction fuel with
  | zero =>
    intro txs env interrupt i logs adjusts trace h
    exact absurd h (Nat.not_lt_zero _)
  | succ fuel ih =>
    intro txs env interrupt i logs adjusts trace h
    have hsz : txs.size ≤ fuel := Nat.lt_succ_iff.mp h
    rw [commitTxsLoop]
    by_cases hsig : interruptSignal interrupt i = commitInterruptNone
    · rw [if_neg (not_not_intro hsig)]
      by_cases hgas : poolGas env < TxGas
      · rw [if_pos hgas]
        exact commitTxsExit_inv gasLimit running interrupt env txs logs adjusts trace
      · rw [if_neg hgas]
        cases hpk : txs.peek with
        | none =>
          exact commitTxsExit_inv gasLimit running interrupt env txs logs adjusts trace
        | some tx =>
          have hpop : txs.pop.size < fuel :=
            Nat.lt_of_lt_of_le (txs.size_pop_lt_of_peek tx hpk) hsz
          have hshift : txs.shift.size < fuel :=
            Nat.lt_of_lt_of_le (txs.size_shift_lt_of_peek tx hpk) hsz
          simp only
          by_cases hprot : (tx.isProtected && !(isEIP155 env.header.number)) = true
          · rw [if_pos hprot]
            exact ih txs.pop env interrupt (i + 1) logs adjusts trace hpop
          · rw [if_neg hprot]
            rcases hA : A env.state (poolGas env) tx with ⟨s', p', rcpt⟩ | ⟨e, s', p'⟩
            · simp only [commitTransaction, hA]
              exact LoopInv.extend gasLimit interrupt env _ ⟨none, .shift, rcpt.logs⟩
                logs _ adjusts trace _ _ (by simp [specIterOp]) (by simp) (by simp)
                (by simp) rfl rfl
                (ih txs.shift _ interrupt (i + 1) (logs ++ rcpt.logs) adjusts
                  (trace ++ [⟨none, .shift, rcpt.logs⟩]) hshift)
            · simp only [commitTransaction, hA]
              cases e with
              | gasLimitReached =>
                exact LoopInv.extend gasLimit interrupt env _
                  ⟨some .gasLimitReached, .pop, []⟩ logs _ adjusts trace _ _
                  (by simp [specIterOp]) (by simp) (by simp) (by simp) (by simp) rfl
                  (ih txs.pop _ interrupt (i + 1) logs adjusts
                    (trace ++ [⟨some .gasLimitReached, .pop, []⟩]) hpop)
              | nonceTooLow =>
                exact LoopInv.extend gasLimit interrupt env _
                  ⟨some .nonceTooLow, .shift, []⟩ logs _ adjusts trace _ _
                  (by simp [specIterOp]) (by simp) (by simp) (by simp) (by simp) rfl
                  (ih txs.shift _ interrupt (i + 1) logs adjusts
                    (trace ++ [⟨some .nonceTooLow, .shift, []⟩]) hshift)
              | nonceTooHigh =>
                exact LoopInv.extend gasLimit interrupt env _
                  ⟨some .nonceTooHigh, .pop, []⟩ logs _ adjusts trace _ _
                  (by simp [specIterOp]) (by simp) (by simp) (by simp) (by simp) rfl
                  (ih txs.pop _ interrupt (i + 1) logs adjusts
                    (trace ++ [⟨some .nonceTooHigh, .pop, []⟩]) hpop)
              | txTypeNotSupported =>
                exact LoopInv.extend gasLimit interrupt env _
                  ⟨some .txTypeNotSupported, .pop, []⟩ logs _ adjusts trace _ _
                  (by simp [specIterOp]) (by simp) (by simp) (by simp) (by simp) rfl
                  (ih txs.pop _ interrupt (i + 1) logs adjusts
                    (trace ++ [⟨some .txTypeNotSupported, .pop, []⟩]) hpop)
              | txNotFound =>
                exact LoopInv.extend gasLimit interrupt env _
                  ⟨some .txNotFound, .shift, []⟩ logs _ adjusts trace _ _
                  (by simp [specIterOp]) (by simp) (by simp) (by simp) (by simp) rfl
                  (ih txs.shift _ interrupt (i + 1) logs adjusts
                    (trace ++ [⟨some .txNotFound, .shift, []⟩]) hshift)
              | other c =>
                exact LoopInv.extend gasLimit interrupt env _
                  ⟨some (.other c), .shift, []⟩ logs _ adjusts trace _ _
                  (by simp [specIterOp]) (by simp) (by simp) (by simp) (by simp) rfl
                  (ih txs.shift _ interrupt (i + 1) logs adjusts
                    (trace ++ [⟨some (.other c), .shift, []⟩]) hshift)
    · rw [if_pos hsig]
      unfold LoopInv
      refine ⟨[], ?_, ?_, ?_, ?_, ?_, ?_, ?_, ?_, ?_, ?_, ?_⟩
      · simp
      · simp
      · simp [countSuccess]
      · simp [countSuccess]
      · simp [countSuccess]
      · simp
      · simp [beq_iff_eq]
      · intro hstop
        have : interruptSignal interrupt i = commitInterruptResubmit := by
          simpa using hstop
        simp [this]
      · intro s hs hne
        have : s = interruptSignal interrupt i := by
          simpa using hs.symm
        subst this
        simp [if_neg hne]
      · intro hstop
        simp at hstop
      · intro hnone
        subst hnone
        simp [interruptSignal, commitInterruptNone] at hsig

/-- Lifting of `LoopInv` to the `commitTransactions` wrapper, relative to the
environment after the lazy gas-pool allocation. -/
theorem commitTransactions_inv (A : ApplyFn) (isEIP155 : ℕ → Bool)
    (running : Bool) (env : Environment) (txs : TransactionsByPriceAndNonce)
    (interrupt : Option (ℕ → ℕ)) :
    LoopInv env.header.gasLimit interrupt
      (if env.gasPool = none then { env with gasPool := some env.header.gasLimit } else env)
      [] [] []
      (commitTransactions A isEIP155 running env txs interrupt) := by
  unfold commitTransactions
  exact commitTxsLoop_spec A isEIP155 running env.header.gasLimit (txs.size + 1)
    txs _ interrupt 0 [] [] [] (Nat.lt_succ_self _)

/-! ## Mutation sequences on an environment (for the accounting invariant) -/

/-- One environment-mutating operation from the claim's vocabulary:
a `commitTransactions` round or an `environment.copy`. -/
inductive EnvOp where
  | commitTxs (A : ApplyFn) (isEIP155 : ℕ → Bool) (running : Bool)
      (txs : TransactionsByPriceAndNonce) (interrupt : Option (ℕ → ℕ))
  | copyEnv

/-- Apply one operation to an environment. -/
def applyEnvOp (env : Environment) : EnvOp → Environment
  | .commitTxs A isEIP155 running txs interrupt =>
    (commitTransactions A isEIP155 running env txs interrupt).env
  | .copyEnv => env.copy

/-- Apply a sequence of operations. -/
def runEnvOps (env : Environment) (ops : List EnvOp) : Environment :=
  ops.foldl applyEnvOp env

/-- The accounting invariant of the spec:
`len(txs) == len(receipts) == tcount`. -/
def EnvCounts (env : Environment) : Prop :=
  env.txs.length = env.receipts.length ∧ env.receipts.length = env.tcount

/-! ## Seal dispatcher (`taskLoop`, worker.go lines 686-731) -/

/-- A sealing `task` (worker.go lines 128-133); `block` is an opaque block
identifier, `state` an opaque state value. -/
structure Task where
  receipts : List Receipt
  state : ℕ
  block : ℕ
  createdAt : ℕ
deriving DecidableEq

/-- The loop state of `taskLoop`: the current stop channel (by identifier,
`none` for nil), the previous seal-hash, the `pendingTasks` table, plus
instrumentation: the identifiers of channels closed so far and a counter
producing fresh channel identifiers. -/
structure TaskLoopState where
  stopCh : Option ℕ
  prev : ℕ
  pendingTasks : List (ℕ × Task)
  closed : List ℕ
  nextCh : ℕ
deriving DecidableEq

/-- The `interrupt` closure of `taskLoop` (worker.go lines 694-699): close
the current stop channel, if any. -/
def taskLoopInterrupt (s : TaskLoopState) : TaskLoopState :=
  match s.stopCh with
  | some ch => { s with stopCh := none, closed := s.closed ++ [ch] }
  | none => s

/-- Go map assignment `m[k] = v` on the association-list model. -/
def insertTask (m : List (ℕ × Task)) (k : ℕ) (v : Task) : List (ℕ × Task) :=
  if m.any (fun p => p.1 = k) then
    m.map (fun p => if p.1 = k then (k, v) else p)
  else m ++ [(k, v)]

/-- The `case task := <-w.taskCh` body of `taskLoop` (worker.go lines
702-725).  When the seal-hash equals `prev` the source only logs
("sealHash == prev, continuing with sending task to pending channel"); the
`continue` is commented out, so the body proceeds identically in both
cases: interrupt the previous seal, install a fresh stop channel, record
the seal-hash, and insert the task into `pendingTasks`. -/
def taskLoopStep (sealHash : ℕ → ℕ) (s : TaskLoopState) (task : Task) :
    TaskLoopState :=
  let h := sealHash task.block
  let s1 := taskLoopInterrupt s
  let s2 := { s1 with stopCh := some s1.nextCh, nextCh := s1.nextCh + 1, prev := h }
  { s2 with pendingTasks := insertTask s2.pendingTasks h task }

/-- Initial state of `taskLoop`: nil stop channel, zero-valued `prev`, empty
table. -/
def taskLoopInit : TaskLoopState := ⟨none, 0, [], [], 0⟩

/-- The dispatcher after receiving a sequence of tasks. -/
def taskLoopRun (sealHash : ℕ → ℕ) (tasks : List Task) : TaskLoopState :=
  tasks.foldl (taskLoopStep sealHash) taskLoopInit

/-! ## Snapshot view (worker.go lines 333-357 and 797-810)

For the aliasing claims the `StateDB` handles are references into an
explicit heap: `Copy` allocates a fresh cell holding the same value,
mutation writes through a reference. -/

/-- A heap of `StateDB` objects; references are indices into `vals`. -/
structure StateHeap where
  vals : List ℕ
deriving DecidableEq

/-- Read the state value behind a reference. -/
def StateHeap.read (h : StateHeap) (r : ℕ) : ℕ := h.vals.getD r 0

/-- Mutate the state behind a reference (out-of-range writes are no-ops). -/
def StateHeap.write (h : StateHeap) (r : ℕ) (v : ℕ) : StateHeap :=
  ⟨h.vals.set r v⟩

/-- Source `StateDB.Copy()`: allocate a fresh object with the same value; returns
the new heap and the fresh reference. -/
def StateHeap.copyState (h : StateHeap) (r : ℕ) : StateHeap × ℕ :=
  (⟨h.vals ++ [h.read r]⟩, h.vals.length)

/-- A `types.Block` as assembled by `types.NewBlock` for the snapshot: the
claims depend on its components, not on the recomputed tx-root hash. -/
structure Block where
  header : Header
  txs : List Tx
  uncles : List Header
  receipts : List Receipt
deriving DecidableEq

/-- Source `types.NewBlock(header, txs, uncles, receipts, trie.NewStackTrie(nil))`. -/
def NewBlock (header : Header) (txs : List Tx) (uncles : List Header)
    (receipts : List Receipt) : Block :=
  ⟨header, txs, uncles, receipts⟩

/-- The snapshot slice of the `worker` struct (worker.go lines 219-222):
`snapshotBlock`, `snapshotReceipts`, `snapshotState` (a heap reference,
`none` for nil).  All three start at the Go zero value. -/
structure Worker where
  snapshotBlock : Option Block
  snapshotReceipts : List Receipt
  snapshotState : Option ℕ
deriving DecidableEq

/-- The snapshot fields of a freshly constructed worker (never touched by
`newWorker`). -/
def initialWorker : Worker := ⟨none, [], none⟩

/-- Source `updateSnapshot` (worker.go lines 797-810), with `env.state` read as a
heap reference: rebuild the block, deep-copy the receipts, copy the
state. -/
def updateSnapshot (w : Worker) (env : Environment) (h : StateHeap) :
    Worker × StateHeap :=
  let block := NewBlock env.header env.txs env.unclelist env.receipts
  let copied := h.copyState env.state
  ({ snapshotBlock := some block
     snapshotReceipts := copyReceipts env.receipts
     snapshotState := some copied.2 }, copied.1)

/-- Source `pending` (worker.go lines 333-341): `(nil, nil)` when no snapshot
state exists, otherwise the snapshot block and a fresh copy of the
snapshot state. -/
def pending (w : Worker) (h : StateHeap) : Option Block × Option ℕ × StateHeap :=
  match w.snapshotState with
  | none => (none, none, h)
  | some r =>
    let copied := h.copyState r
    (w.snapshotBlock, some copied.2, copied.1)

/-- Source `pendingBlock` (worker.go lines 344-349). -/
def pendingBlock (w : Worker) : Option Block := w.snapshotBlock

/-- Source `pendingBlockAndReceipts` (worker.go lines 352-357). -/
def pendingBlockAndReceipts (w : Worker) : Option Block × List Receipt :=
  (w.snapshotBlock, w.snapshotReceipts)

/-! ## Claim C3 -/

/-- Claim C3: `commitUncle` returns an error exactly in the four stated
cases, checked in this order — duplicate hash in `env.uncles`, parent
equal to the header's parent, parent not in `env.ancestors`, hash in
`env.family` — leaves `env.uncles` unchanged in every error case, and
otherwise inserts the uncle under its hash and returns no error. -/
theorem commitUncle_cases (env : Environment) (uncle : Header) :
    ((commitUncle env uncle).2 = some .notUnique ↔
      unclesContains env.uncles uncle.hash = true)
  ∧ ((commitUncle env uncle).2 = some .isSibling ↔
      unclesContains env.uncles uncle.hash = false ∧
      env.header.parentHash = uncle.parentHash)
  ∧ ((commitUncle env uncle).2 = some .parentUnknown ↔
      unclesContains env.uncles uncle.hash = false ∧
      env.header.parentHash ≠ uncle.parentHash ∧
      uncle.parentHash ∉ env.ancestors)
  ∧ ((commitUncle env uncle).2 = some .alreadyIncluded ↔
      unclesContains env.uncles uncle.hash = false ∧
      env.header.parentHash ≠ uncle.parentHash ∧
      uncle.parentHash ∈ env.ancestors ∧
      uncle.hash ∈ env.family)
  ∧ ((commitUncle env uncle).2 ≠ none → (commitUncle env uncle).1 = env)
  ∧ ((commitUncle env uncle).2 = none →
      (commitUncle env uncle).1 =
        { env with uncles := env.uncles ++ [(uncle.hash, uncle)] }) := by
  by_cases h1 : unclesContains env.uncles uncle.hash
  · simp [commitUncle, h1]
  · by_cases h2 : env.header.parentHash = uncle.parentHash
    · simp [commitUncle, h1, h2]
    · by_cases h3 : uncle.parentHash ∈ env.ancestors
      · by_cases h4 : uncle.hash ∈ env.family
        · simp [commitUncle, h1, h2, h3, h4]
        · simp [commitUncle, h1, h2, h3, h4]
      · simp [commitUncle, h1, h2, h3]

/-- Witness for C3: a concrete admissible uncle is inserted, and a
concrete sibling is rejected without touching the environment. -/
theorem commitUncle_cases_witness :
    (commitUncle (makeEnv 0 0 ⟨9, 0, 0, 0, 1⟩ 0 [(3, [])]) ⟨3, 0, 0, 0, 7⟩).1 =
      { makeEnv 0 0 ⟨9, 0, 0, 0, 1⟩ 0 [(3, [])] with
          uncles := (makeEnv 0 0 ⟨9, 0, 0, 0, 1⟩ 0 [(3, [])]).uncles ++
            [(Header.hash ⟨3, 0, 0, 0, 7⟩, ⟨3, 0, 0, 0, 7⟩)] }
  ∧ (commitUncle (makeEnv 0 0 ⟨9, 0, 0, 0, 1⟩ 0 [(3, [])]) ⟨9, 0, 0, 0, 7⟩).1 =
      makeEnv 0 0 ⟨9, 0, 0, 0, 1⟩ 0 [(3, [])] :=
  ⟨(commitUncle_cases (makeEnv 0 0 ⟨9, 0, 0, 0, 1⟩ 0 [(3, [])]) ⟨3, 0, 0, 0, 7⟩).2.2.2.2.2
      (by decide),
   (commitUncle_cases (makeEnv 0 0 ⟨9, 0, 0, 0, 1⟩ 0 [(3, [])]) ⟨9, 0, 0, 0, 7⟩).2.2.2.2.1
      (by decide)⟩

/-! ## Claim C6 -/

/-- Claim C6: `commitTransaction` is atomic on failure — when applying the
transaction errors, the working state is reverted to the snapshot, `txs`
and `receipts` are unchanged, and the error is returned; on success the
transaction and its receipt are appended and the receipt's logs are
returned.  (The gas pool is a separate object not covered by the state
snapshot; a nil transaction errors without touching anything.) -/
theorem commitTransaction_atomic (A : ApplyFn) (env : Environment) (tx : Tx) :
    (∀ e s' p', A env.state (poolGas env) tx = .err e s' p' →
      commitTransaction A env (some tx) =
        ({ env with gasPool := some p' }, .error e))
  ∧ (∀ s' p' rcpt, A env.state (poolGas env) tx = .ok s' p' rcpt →
      commitTransaction A env (some tx) =
        ({ env with
            state := s'
            gasPool := some p'
            txs := env.txs ++ [tx]
            receipts := env.receipts ++ [rcpt] }, .ok rcpt.logs))
  ∧ commitTransaction A env none = (env, .error .txNotFound) := by
  refine ⟨?_, ?_, rfl⟩
  · intro e s' p' hA
    simp [commitTransaction, hA]
  · intro s' p' rcpt hA
    simp [commitTransaction, hA]

/-- Witness for C6 at a concrete failing oracle and a concrete succeeding
oracle. -/
theorem commitTransaction_atomic_witness :
    commitTransaction (fun _ _ _ => .err .nonceTooLow 99 77)
        (makeEnv 0 5 ⟨0, 0, 100, 0, 0⟩ 0 []) (some ⟨1, false⟩) =
      ({ makeEnv 0 5 ⟨0, 0, 100, 0, 0⟩ 0 [] with gasPool := some 77 },
       .error .nonceTooLow)
  ∧ commitTransaction (fun _ _ _ => .ok 6 44 ⟨[8], 21000⟩)
        (makeEnv 0 5 ⟨0, 0, 100, 0, 0⟩ 0 []) (some ⟨1, false⟩) =
      ({ makeEnv 0 5 ⟨0, 0, 100, 0, 0⟩ 0 [] with
          state := 6
          gasPool := some 44
          txs := (makeEnv 0 5 ⟨0, 0, 100, 0, 0⟩ 0 []).txs ++ [⟨1, false⟩]
          receipts := (makeEnv 0 5 ⟨0, 0, 100, 0, 0⟩ 0 []).receipts ++ [⟨[8], 21000⟩] },
       .ok (Receipt.logs ⟨[8], 21000⟩)) :=
  ⟨(commitTransaction_atomic (fun _ _ _ => .err .nonceTooLow 99 77)
      (makeEnv 0 5 ⟨0, 0, 100, 0, 0⟩ 0 []) ⟨1, false⟩).1 .nonceTooLow 99 77 rfl,
   (commitTransaction_atomic (fun _ _ _ => .ok 6 44 ⟨[8], 21000⟩)
      (makeEnv 0 5 ⟨0, 0, 100, 0, 0⟩ 0 []) ⟨1, false⟩).2.1 6 44 ⟨[8], 21000⟩ rfl⟩

/-! ## Claim C7 -/

/-- Counterexample for C7 as stated: two tasks with the same seal-hash —
the second one still closes the prior stop channel and still modifies the
pending-tasks table, because the `continue` in `taskLoop` is commented
out. -/
theorem taskLoop_dedup_counterexample :
    ((fun _ => 5) : ℕ → ℕ) (Task.block ⟨[], 0, 2, 0⟩) =
      (taskLoopStep (fun _ => 5) taskLoopInit ⟨[], 0, 1, 0⟩).prev
  ∧ (taskLoopStep (fun _ => 5) (taskLoopStep (fun _ => 5) taskLoopInit ⟨[], 0, 1, 0⟩)
        ⟨[], 0, 2, 0⟩).closed ≠
      (taskLoopStep (fun _ => 5) taskLoopInit ⟨[], 0, 1, 0⟩).closed
  ∧ (taskLoopStep (fun _ => 5) (taskLoopStep (fun _ => 5) taskLoopInit ⟨[], 0, 1, 0⟩)
        ⟨[], 0, 2, 0⟩).pendingTasks ≠
      (taskLoopStep (fun _ => 5) taskLoopInit ⟨[], 0, 1, 0⟩).pendingTasks := by
  refine ⟨rfl, ?_, ?_⟩ <;> decide

/-- Claim C7 (amended): `taskLoop` does not skip duplicate seal-hashes —
for every received task, duplicate or not, the prior stop channel (if any)
is closed, a fresh stop channel is installed, `prev` becomes the task's
seal-hash, and the task is inserted into the pending-tasks table under its
seal-hash; equality with the previous seal-hash only logs. -/
theorem taskLoopStep_always_dispatches (sealHash : ℕ → ℕ) (s : TaskLoopState)
    (task : Task) :
    taskLoopStep sealHash s task =
      { stopCh := some s.nextCh
        prev := sealHash task.block
        pendingTasks := insertTask s.pendingTasks (sealHash task.block) task
        closed := s.closed ++ (match s.stopCh with | some ch => [ch] | none => [])
        nextCh := s.nextCh + 1 } := by
  cases hch : s.stopCh <;>
    simp [taskLoopStep, taskLoopInterrupt, hch]

/-! ## Claim C8 -/

/-- Counterexample for C8 as stated: a configured recommit interval of
16 s is not clamped down to 15 s by `newWorker`; the loop starts at
16 s. -/
theorem sanitizeRecommit_no_upper_clamp :
    sanitizeRecommit (16 * 1000000000) = 16 * 1000000000 ∧
    sanitizeRecommit (16 * 1000000000) ≠ maxRecommitInterval := by
  refine ⟨?_, ?_⟩ <;> decide

/-- Claim C8 (amended): `newWorker` clamps the configured recommit
interval from below only — every value under 1 s starts the loop at 1 s,
and every value of at least 1 s (even one above 15 s) is passed through
unchanged. -/
theorem sanitizeRecommit_lower_clamp (r : ℤ) :
    (r < minRecommitInterval → sanitizeRecommit r = minRecommitInterval)
  ∧ (minRecommitInterval ≤ r → sanitizeRecommit r = r)
  ∧ minRecommitInterval ≤ sanitizeRecommit r := by
  unfold sanitizeRecommit
  refine ⟨fun h => if_pos h, fun h => if_neg (not_lt.mpr h), ?_⟩
  split
  · exact le_refl _
  · next h => exact le_of_not_lt h

/-- Witness for C8 (amended) at a too-short and an in-range interval. -/
theorem sanitizeRecommit_lower_clamp_witness :
    sanitizeRecommit 0 = minRecommitInterval ∧
    sanitizeRecommit (2 * 1000000000) = 2 * 1000000000 :=
  ⟨(sanitizeRecommit_lower_clamp 0).1 (by decide),
   (sanitizeRecommit_lower_clamp (2 * 1000000000)).2.1 (by decide)⟩

/-! ## Claim C10 -/

/-- Claim C10: before any snapshot exists (`snapshotState` nil), `pending`
returns `(nil, nil)` without copying any state (the heap is untouched),
and `pendingBlock` / `pendingBlockAndReceipts` return the nil snapshot
values without error. -/
theorem pending_nil_snapshot (w : Worker) (h : StateHeap)
    (hs : w.snapshotState = none) :
    pending w h = (none, none, h)
  ∧ pendingBlock w = w.snapshotBlock
  ∧ pendingBlockAndReceipts w = (w.snapshotBlock, w.snapshotReceipts)
  ∧ pending initialWorker h = (none, none, h)
  ∧ pendingBlock initialWorker = none
  ∧ pendingBlockAndReceipts initialWorker = (none, []) := by
  refine ⟨?_, rfl, rfl, rfl, rfl, rfl⟩
  simp [pending, hs]

/-- Witness for C10 at the freshly constructed worker and a nonempty
heap. -/
theorem pending_nil_snapshot_witness :
    pending initialWorker ⟨[5]⟩ = (none, none, ⟨[5]⟩) :=
  (pending_nil_snapshot initialWorker ⟨[5]⟩ rfl).1

/-! ## Claim C5 -/

theorem int64FromFloat_intCast (z : ℤ) : int64FromFloat (z : ℚ) = z := by
  unfold int64FromFloat
  split <;> simp

theorem int64FromFloat_le_of_le (q : ℚ) (z : ℤ) (h0 : 0 ≤ q) (h : q ≤ (z : ℚ)) :
    int64FromFloat q ≤ z := by
  unfold int64FromFloat
  rw [if_pos h0]
  calc ⌊q⌋ ≤ ⌊(z : ℚ)⌋ := Int.floor_le_floor h
    _ = z := Int.floor_intCast z

theorem le_int64FromFloat_of_le (q : ℚ) (z : ℤ) (h0 : 0 ≤ q) (h : (z : ℚ) ≤ q) :
    z ≤ int64FromFloat q := by
  unfold int64FromFloat
  rw [if_pos h0]
  calc z = ⌊(z : ℚ)⌋ := (Int.floor_intCast z).symm
    _ ≤ ⌊q⌋ := Int.floor_le_floor h

/-- One feedback step keeps `recommit` inside
`[minRecommit, maxRecommitInterval]`, for the fill ratios the worker can
produce. -/
theorem resubmitAdjustStep_bounds (minR r : ℤ) (a : IntervalAdjust)
    (hmin : minRecommitInterval ≤ minR) (hlo : minR ≤ r)
    (hhi : r ≤ maxRecommitInterval)
    (hratio : a.inc = true → 1 / 10 ≤ a.ratio ∧ a.ratio ≤ 1) :
    minR ≤ resubmitAdjustStep minR r a ∧
      resubmitAdjustStep minR r a ≤ maxRecommitInterval := by
  have hminmax : minR ≤ maxRecommitInterval := hlo.trans hhi
  have hminQ : (1000000000 : ℚ) ≤ (minR : ℚ) := by
    exact_mod_cast (show (1000000000 : ℤ) ≤ minR from hmin)
  have hloQ : (minR : ℚ) ≤ (r : ℚ) := by exact_mod_cast hlo
  have hhiQ : (r : ℚ) ≤ ((maxRecommitInterval : ℤ) : ℚ) := by exact_mod_cast hhi
  have hmmQ : ((minR : ℤ) : ℚ) ≤ ((maxRecommitInterval : ℤ) : ℚ) := by
    exact_mod_cast hminmax
  have hmaxQ : ((maxRecommitInterval : ℤ) : ℚ) = (15000000000 : ℚ) := by
    norm_num [maxRecommitInterval]
  rcases a with ⟨ratio, inc⟩
  cases inc with
  | true =>
    obtain ⟨hr1, hr2⟩ := hratio rfl
    have hrpos : (0 : ℚ) < ratio := lt_of_lt_of_le (by norm_num) hr1
    have hrQ : (0 : ℚ) < (r : ℚ) := lt_of_lt_of_le (by norm_num) (hminQ.trans hloQ)
    have htarget : (r : ℚ) ≤ (r : ℚ) / ratio := by
      rw [le_div_iff₀ hrpos]
      nlinarith
    simp only [resubmitAdjustStep, recalcRecommit, intervalAdjustRatio,
      intervalAdjustBias, if_pos]
    set n : ℚ := (r : ℚ) * (1 - 1 / 10) + 1 / 10 * ((r : ℚ) / ratio + 200 * 1000 * 1000)
      with hn
    have hnlow : (r : ℚ) + 20000000 ≤ n := by
      rw [hn]; nlinarith
    split
    · next hgt =>
      rw [int64FromFloat_intCast]
      exact ⟨hminmax, le_refl _⟩
    · next hle =>
      have hle' : n ≤ ((maxRecommitInterval : ℤ) : ℚ) := by
        rw [hmaxQ]
        exact le_of_not_lt (by simpa [hmaxQ] using hle)
      have h0 : (0 : ℚ) ≤ n := le_trans (by positivity) hnlow
      refine ⟨le_int64FromFloat_of_le n minR h0 ?_, int64FromFloat_le_of_le n _ h0 hle'⟩
      calc (minR : ℚ) ≤ (r : ℚ) := hloQ
        _ ≤ n := le_trans (by linarith) hnlow
  | false =>
    simp only [resubmitAdjustStep, recalcRecommit, intervalAdjustRatio,
      intervalAdjustBias, Bool.false_eq_true, if_false]
    set n : ℚ := (r : ℚ) * (1 - 1 / 10) + 1 / 10 * ((minR : ℚ) - 200 * 1000 * 1000)
      with hn
    split
    · next hlt =>
      rw [int64FromFloat_intCast]
      exact ⟨le_refl _, hminmax⟩
    · next hge =>
      have hge' : (minR : ℚ) ≤ n := le_of_not_lt hge
      have h0 : (0 : ℚ) ≤ n := le_trans (by linarith) hge'
      have hup : n ≤ ((maxRecommitInterval : ℤ) : ℚ) := by
        rw [hn, hmaxQ]
        rw [hmaxQ] at hhiQ hmmQ
        nlinarith
      exact ⟨le_int64FromFloat_of_le n minR h0 hge', int64FromFloat_le_of_le n _ h0 hup⟩

/-- A whole feedback sequence keeps `recommit` inside the bounds. -/
theorem resubmitAdjustRun_bounds (minR : ℤ) (adjusts : List IntervalAdjust) :
    ∀ r : ℤ, minRecommitInterval ≤ minR → minR ≤ r → r ≤ maxRecommitInterval →
      (∀ a ∈ adjusts, a.inc = true → 1 / 10 ≤ a.ratio ∧ a.ratio ≤ 1) →
      minR ≤ resubmitAdjustRun minR r adjusts ∧
        resubmitAdjustRun minR r adjusts ≤ maxRecommitInterval := by
  induction adjusts with
  | nil =>
    intro r _ h2 h3 _
    exact ⟨h2, h3⟩
  | cons a as ihas =>
    intro r h1 h2 h3 h4
    have hstep := resubmitAdjustStep_bounds minR r a h1 h2 h3 (h4 a (by simp))
    have hrest := ihas (resubmitAdjustStep minR r a) h1 hstep.1 hstep.2
      (fun b hb => h4 b (by simp [hb]))
    simpa [resubmitAdjustRun, List.foldl_cons] using hrest

/-- Claim C5: starting from any `recommit` in
`[minRecommit, maxRecommitInterval]` with `minRecommit` at or above the
1 s floor, every sequence of feedback events (with the fill ratios the
worker produces, in `[0.1, 1]`) keeps `recommit` in the interval; an
`inc=true` feedback moves it to
`0.9·recommit + 0.1·(recommit/ratio + bias)` clamped above to 15 s, an
`inc=false` feedback to `0.9·recommit + 0.1·(minRecommit − bias)` clamped
below to `minRecommit`, with `bias = 200 ms`. -/
theorem recommit_bounds_under_feedback (minR r : ℤ)
    (adjusts : List IntervalAdjust)
    (hfloor : minRecommitInterval ≤ minR)
    (hlo : minR ≤ r) (hhi : r ≤ maxRecommitInterval)
    (hratio : ∀ a ∈ adjusts, a.inc = true → 1 / 10 ≤ a.ratio ∧ a.ratio ≤ 1) :
    minR ≤ resubmitAdjustRun minR r adjusts
  ∧ resubmitAdjustRun minR r adjusts ≤ maxRecommitInterval
  ∧ (∀ (m p : ℤ) (a : IntervalAdjust), a.inc = true →
      resubmitAdjustStep m p a =
        int64FromFloat (min ((p : ℚ) * (9 / 10) + (1 / 10) * ((p : ℚ) / a.ratio + 200 * 1000 * 1000))
          (15000000000 : ℚ)))
  ∧ (∀ (m p : ℤ) (a : IntervalAdjust), a.inc = false →
      resubmitAdjustStep m p a =
        int64FromFloat (max ((p : ℚ) * (9 / 10) + (1 / 10) * ((m : ℚ) - 200 * 1000 * 1000))
          ((m : ℚ)))) := by
  obtain ⟨hb1, hb2⟩ := resubmitAdjustRun_bounds minR adjusts r hfloor hlo hhi hratio
  refine ⟨hb1, hb2, ?_, ?_⟩
  · intro m p a ha
    simp only [resubmitAdjustStep, recalcRecommit, intervalAdjustRatio,
      intervalAdjustBias, ha, if_pos]
    congr 1
    have hmaxQ : ((maxRecommitInterval : ℤ) : ℚ) = (15000000000 : ℚ) := by
      norm_num [maxRecommitInterval]
    rw [hmaxQ]
    rcases le_or_lt ((p : ℚ) * (1 - 1 / 10) + 1 / 10 * ((p : ℚ) / a.ratio + 200 * 1000 * 1000))
        (15000000000 : ℚ) with hc | hc
    · rw [if_neg (not_lt.mpr hc), min_eq_left (by linarith)]
      ring
    · rw [if_pos hc, min_eq_right (by linarith)]
  · intro m p a ha
    simp only [resubmitAdjustStep, recalcRecommit, intervalAdjustRatio,
      intervalAdjustBias, ha, Bool.false_eq_true, if_false]
    congr 1
    rcases le_or_lt ((m : ℚ))
        ((p : ℚ) * (1 - 1 / 10) + 1 / 10 * ((m : ℚ) - 200 * 1000 * 1000)) with hc | hc
    · rw [if_neg (not_lt.mpr hc), max_eq_left (by linarith)]
      ring
    · rw [if_pos hc, max_eq_right (by linarith)]

/-- Witness for C5: a concrete feedback sequence from the floor. -/
theorem recommit_bounds_under_feedback_witness :
    minRecommitInterval ≤
      resubmitAdjustRun minRecommitInterval minRecommitInterval
        [⟨1 / 2, true⟩, ⟨0, false⟩]
  ∧ resubmitAdjustRun minRecommitInterval minRecommitInterval
        [⟨1 / 2, true⟩, ⟨0, false⟩] ≤ maxRecommitInterval := by
  have hrat : ∀ a ∈ [(⟨1 / 2, true⟩ : IntervalAdjust), ⟨0, false⟩],
      a.inc = true → 1 / 10 ≤ a.ratio ∧ a.ratio ≤ 1 := by
    intro a ha
    rcases List.mem_cons.mp ha with rfl | ha
    · intro _
      norm_num
    · rcases List.mem_cons.mp ha with rfl | ha
      · intro hfalse
        simp at hfalse
      · simp at ha
  have h := recommit_bounds_under_feedback minRecommitInterval minRecommitInterval
    [⟨1 / 2, true⟩, ⟨0, false⟩] (by decide) (by decide) (by decide) hrat
  exact ⟨h.1, h.2.1⟩

/-! ## Claim C1 -/

/-- Claim C1: in `commitTransactions`, a new-head signal (1) observed at
the top of an iteration makes the call return `true` with no feedback
emitted; a resubmit signal (2) emits exactly one `adjust{ratio, inc:true}`
— with ratio `(gasLimit − remainingGasPool)/gasLimit` clamped below to 0.1
— and returns `false`; a normal loop exit (gas pool below the base tx gas
or iterator exhausted) emits exactly one `adjust{inc:false}` when the
interrupt pointer is non-nil, none when it is nil, and returns `false`. -/
theorem commitTransactions_interrupt_protocol (A : ApplyFn)
    (isEIP155 : ℕ → Bool) (running : Bool) (env : Environment)
    (txs : TransactionsByPriceAndNonce) (interrupt : Option (ℕ → ℕ)) :
    ((commitTransactions A isEIP155 running env txs interrupt).ret = true ↔
      (commitTransactions A isEIP155 running env txs interrupt).stopSig =
        some commitInterruptNewHead)
  ∧ ((commitTransactions A isEIP155 running env txs interrupt).stopSig =
        some commitInterruptNewHead →
      (commitTransactions A isEIP155 running env txs interrupt).adjusts = [])
  ∧ ((commitTransactions A isEIP155 running env txs interrupt).stopSig =
        some commitInterruptResubmit →
      (commitTransactions A isEIP155 running env txs interrupt).adjusts =
        [⟨fillRatio env.header.gasLimit
            (poolGas (commitTransactions A isEIP155 running env txs interrupt).env),
          true⟩]
      ∧ (commitTransactions A isEIP155 running env txs interrupt).ret = false)
  ∧ ((commitTransactions A isEIP155 running env txs interrupt).stopSig = none →
      (commitTransactions A isEIP155 running env txs interrupt).ret = false
      ∧ (commitTransactions A isEIP155 running env txs interrupt).adjusts =
          (if interrupt.isSome then [⟨0, false⟩] else []))
  ∧ (interrupt = none →
      (commitTransactions A isEIP155 running env txs interrupt).adjusts = [])
  ∧ (∀ f, interrupt = some f → f 0 ≠ commitInterruptNone →
      (commitTransactions A isEIP155 running env txs interrupt).stopSig = some (f 0))
  ∧ (∀ L p : ℕ, p ≤ L → 0 < L → L < 2 ^ 64 →
      fillRatio L p = max (((L : ℚ) - (p : ℚ)) / (L : ℚ)) (1 / 10)) := by
  obtain ⟨t, h1, h2, h3, h4, h5, h6, h7, h8, h9, h10, h11⟩ :=
    commitTransactions_inv A isEIP155 running env txs interrupt
  refine ⟨h7, ?_, ?_, ?_, ?_, ?_, ?_⟩
  · intro hs
    exact h9 commitInterruptNewHead hs (by decide)
  · intro hs
    refine ⟨by simpa using h8 hs, ?_⟩
    cases hrt : (commitTransactions A isEIP155 running env txs interrupt).ret with
    | false => rfl
    | true =>
      have := h7.mp hrt
      rw [this] at hs
      exact absurd (Option.some.inj hs) (by decide)
  · intro hs
    refine ⟨?_, by simpa using h10 hs⟩
    cases hrt : (commitTransactions A isEIP155 running env txs interrupt).ret with
    | false => rfl
    | true =>
      have := h7.mp hrt
      rw [hs] at this
      exact absurd this (by simp)
  · intro hnone
    have hstop := h11 hnone
    have := h10 hstop
    simpa [hnone] using this
  · intro f hf hne
    subst hf
    unfold commitTransactions
    simp only [commitTxsLoop]
    rw [if_pos (show interruptSignal (some f) 0 ≠ commitInterruptNone by
      simpa [interruptSignal] using hne)]
    simp [interruptSignal]
  · intro L p hpL hL hL64
    have hsub : uint64Sub L p = L - p := by
      unfold uint64Sub
      rw [Int.emod_eq_of_lt (by omega) (by omega)]
      omega
    simp only [fillRatio, hsub]
    rw [Nat.cast_sub hpL]
    rcases lt_or_le (((L : ℚ) - (p : ℚ)) / (L : ℚ)) (1 / 10) with hc | hc
    · rw [if_pos hc, max_eq_right (le_of_lt hc)]
    · rw [if_neg (not_lt.mpr hc), max_eq_left hc]

/-- Witness for C1: a resubmit signal at iteration 0 on a full gas pool
yields the clamped ratio feedback, and the ratio formula agrees with the
spec's clamped quotient on concrete operands. -/
theorem commitTransactions_interrupt_protocol_witness :
    (commitTransactions (fun s p _ => .ok s p ⟨[], 0⟩) (fun _ => true) false
        (makeEnv 0 0 ⟨0, 0, 100000, 0, 3⟩ 0 []) ⟨[[⟨5, false⟩]]⟩
        (some (fun _ => 2))).adjusts =
      [⟨fillRatio 100000
          (poolGas (commitTransactions (fun s p _ => .ok s p ⟨[], 0⟩) (fun _ => true) false
            (makeEnv 0 0 ⟨0, 0, 100000, 0, 3⟩ 0 []) ⟨[[⟨5, false⟩]]⟩
            (some (fun _ => 2))).env), true⟩]
  ∧ fillRatio 100000 40000 =
      max (((100000 : ℚ) - (40000 : ℚ)) / (100000 : ℚ)) (1 / 10) := by
  refine ⟨?_, ?_⟩
  · exact ((commitTransactions_interrupt_protocol (fun s p _ => .ok s p ⟨[], 0⟩)
      (fun _ => true) false (makeEnv 0 0 ⟨0, 0, 100000, 0, 3⟩ 0 [])
      ⟨[[⟨5, false⟩]]⟩ (some (fun _ => 2))).2.2.1 (by decide)).1
  · exact (commitTransactions_interrupt_protocol (fun s p _ => .ok s p ⟨[], 0⟩)
      (fun _ => true) false (makeEnv 0 0 ⟨0, 0, 100000, 0, 3⟩ 0 [])
      ⟨[[⟨5, false⟩]]⟩ (some (fun _ => 2))).2.2.2.2.2.2 100000 40000
      (by norm_num) (by norm_num) (by norm_num)

/-! ## Claim C4 -/

/-- Claim C4: in the `commitTransactions` loop, the iterator operation
applied after each executed transaction is determined by the error class
exactly as the spec's table states (`specIterOp`): `GasLimitReached`,
`NonceTooHigh` and `TxTypeNotSupported` pop, success and every other error
shift; `tcount` grows exactly by the number of successes, and the
collected logs are exactly the successes' logs in order. -/
theorem commitTransactions_dispatch_policy (A : ApplyFn)
    (isEIP155 : ℕ → Bool) (running : Bool) (env : Environment)
    (txs : TransactionsByPriceAndNonce) (interrupt : Option (ℕ → ℕ)) :
    (∀ p ∈ (commitTransactions A isEIP155 running env txs interrupt).trace,
        p.op = specIterOp p.err)
  ∧ (commitTransactions A isEIP155 running env txs interrupt).env.tcount =
      env.tcount +
        countSuccess (commitTransactions A isEIP155 running env txs interrupt).trace
  ∧ (commitTransactions A isEIP155 running env txs interrupt).logs =
      (((commitTransactions A isEIP155 running env txs interrupt).trace.map
        TraceEntry.logs)).flatten := by
  obtain ⟨t, h1, h2, h3, h4, h5, h6, h7, h8, h9, h10, h11⟩ :=
    commitTransactions_inv A isEIP155 running env txs interrupt
  have ht : (commitTransactions A isEIP155 running env txs interrupt).trace = t := by
    simpa using h1
  refine ⟨?_, ?_, ?_⟩
  · intro p hp
    exact h2 p (by rwa [ht] at hp)
  · rw [ht]
    have henv : (if env.gasPool = none then
        { env with gasPool := some env.header.gasLimit } else env).tcount = env.tcount := by
      by_cases hgp : env.gasPool = none <;> simp [hgp]
    rw [h3, henv]
  · rw [ht]
    simpa using h6

/-- Witness for C4: on a concrete round with one `NonceTooLow` and one
success, the recorded operation for the failing transaction matches the
spec table, and `tcount` counts only the success. -/
theorem commitTransactions_dispatch_policy_witness :
    TraceEntry.op ⟨some .nonceTooLow, .shift, []⟩ =
      specIterOp (TraceEntry.err ⟨some .nonceTooLow, .shift, []⟩)
  ∧ (commitTransactions
      (fun s p tx => if tx.id = 1 then .err .nonceTooLow s p else .ok s p ⟨[tx.id], 21000⟩)
      (fun _ => true) false (makeEnv 0 0 ⟨0, 0, 100000, 0, 3⟩ 0 [])
      ⟨[[⟨1, false⟩, ⟨2, false⟩]]⟩ none).env.tcount =
      (makeEnv 0 0 ⟨0, 0, 100000, 0, 3⟩ 0 []).tcount +
        countSuccess (commitTransactions
          (fun s p tx => if tx.id = 1 then .err .nonceTooLow s p else .ok s p ⟨[tx.id], 21000⟩)
          (fun _ => true) false (makeEnv 0 0 ⟨0, 0, 100000, 0, 3⟩ 0 [])
          ⟨[[⟨1, false⟩, ⟨2, false⟩]]⟩ none).trace :=
  ⟨(commitTransactions_dispatch_policy
      (fun s p tx => if tx.id = 1 then .err .nonceTooLow s p else .ok s p ⟨[tx.id], 21000⟩)
      (fun _ => true) false (makeEnv 0 0 ⟨0, 0, 100000, 0, 3⟩ 0 [])
      ⟨[[⟨1, false⟩, ⟨2, false⟩]]⟩ none).1 ⟨some .nonceTooLow, .shift, []⟩ (by decide),
   (commitTransactions_dispatch_policy
      (fun s p tx => if tx.id = 1 then .err .nonceTooLow s p else .ok s p ⟨[tx.id], 21000⟩)
      (fun _ => true) false (makeEnv 0 0 ⟨0, 0, 100000, 0, 3⟩ 0 [])
      ⟨[[⟨1, false⟩, ⟨2, false⟩]]⟩ none).2.1⟩

/-! ## Claim C2 -/

theorem EnvCounts_makeEnv (signer st : ℕ) (header : Header) (coinbase : ℕ)
    (ancestorBlocks : List (ℕ × List ℕ)) :
    EnvCounts (makeEnv signer st header coinbase ancestorBlocks) :=
  ⟨rfl, rfl⟩

theorem EnvCounts_commitTransactions (A : ApplyFn) (isEIP155 : ℕ → Bool)
    (running : Bool) (txs : TransactionsByPriceAndNonce)
    (interrupt : Option (ℕ → ℕ)) (env : Environment) (h : EnvCounts env) :
    EnvCounts (commitTransactions A isEIP155 running env txs interrupt).env := by
  obtain ⟨t, h1, h2, h3, h4, h5, h6, h7, h8, h9, h10, h11⟩ :=
    commitTransactions_inv A isEIP155 running env txs interrupt
  obtain ⟨hc1, hc2⟩ := h
  have hX : (if env.gasPool = none then
        { env with gasPool := some env.header.gasLimit } else env).txs.length =
        env.txs.length
      ∧ (if env.gasPool = none then
        { env with gasPool := some env.header.gasLimit } else env).receipts.length =
        env.receipts.length
      ∧ (if env.gasPool = none then
        { env with gasPool := some env.header.gasLimit } else env).tcount =
        env.tcount := by
    by_cases hgp : env.gasPool = none <;> simp [hgp]
  refine ⟨?_, ?_⟩
  · rw [h4, h5, hX.1, hX.2.1, hc1]
  · rw [h5, h3, hX.2.1, hX.2.2, hc2]

theorem EnvCounts_copy (env : Environment) (h : EnvCounts env) :
    EnvCounts env.copy := by
  obtain ⟨h1, h2⟩ := h
  exact ⟨by simp [Environment.copy, copyReceipts, h1],
         by simp [Environment.copy, copyReceipts, h2]⟩

/-- Counterexample for C2 as stated: after a (vacuous) `commitTransactions`
round, a single successful bare `commitTransaction` appends the
transaction and the receipt but leaves `tcount` untouched, so
`len(receipts) = tcount` fails for this sequence of
`commitTransactions / commitTransaction` calls from `makeEnv`. -/
theorem env_counts_claim_counterexample :
    (commitTransaction (fun s p _ => .ok s p ⟨[], 21000⟩)
      (commitTransactions (fun s p _ => .ok s p ⟨[], 21000⟩) (fun _ => true) false
        (makeEnv 0 0 ⟨0, 0, 100000, 0, 0⟩ 0 []) ⟨[]⟩ none).env
      (some ⟨1, false⟩)).1.txs.length = 1
  ∧ (commitTransaction (fun s p _ => .ok s p ⟨[], 21000⟩)
      (commitTransactions (fun s p _ => .ok s p ⟨[], 21000⟩) (fun _ => true) false
        (makeEnv 0 0 ⟨0, 0, 100000, 0, 0⟩ 0 []) ⟨[]⟩ none).env
      (some ⟨1, false⟩)).1.receipts.length = 1
  ∧ (commitTransaction (fun s p _ => .ok s p ⟨[], 21000⟩)
      (commitTransactions (fun s p _ => .ok s p ⟨[], 21000⟩) (fun _ => true) false
        (makeEnv 0 0 ⟨0, 0, 100000, 0, 0⟩ 0 []) ⟨[]⟩ none).env
      (some ⟨1, false⟩)).1.tcount = 0
  ∧ ¬ ((commitTransaction (fun s p _ => .ok s p ⟨[], 21000⟩)
      (commitTransactions (fun s p _ => .ok s p ⟨[], 21000⟩) (fun _ => true) false
        (makeEnv 0 0 ⟨0, 0, 100000, 0, 0⟩ 0 []) ⟨[]⟩ none).env
      (some ⟨1, false⟩)).1.receipts.length =
      (commitTransaction (fun s p _ => .ok s p ⟨[], 21000⟩)
        (commitTransactions (fun s p _ => .ok s p ⟨[], 21000⟩) (fun _ => true) false
          (makeEnv 0 0 ⟨0, 0, 100000, 0, 0⟩ 0 []) ⟨[]⟩ none).env
        (some ⟨1, false⟩)).1.tcount) := by
  refine ⟨?_, ?_, ?_, ?_⟩ <;> decide

/-- Claim C2 (amended): for every environment produced by `makeEnv` and
mutated by any sequence of `commitTransactions` calls and
`environment.copy`, `len(txs) = len(receipts) = tcount`: inside
`commitTransactions` a transaction and its receipt are appended together
exactly on success and `tcount` is incremented exactly once per success.
A bare `commitTransaction` call appends the transaction and its receipt
together but never changes `tcount` (the increment lives in
`commitTransactions`), so it preserves only `len(txs) = len(receipts)`. -/
theorem env_counts_invariant (signer st : ℕ) (header : Header)
    (coinbase : ℕ) (ancestorBlocks : List (ℕ × List ℕ)) (ops : List EnvOp) :
    EnvCounts (runEnvOps (makeEnv signer st header coinbase ancestorBlocks) ops)
  ∧ (∀ (A : ApplyFn) (env : Environment) (tx : Option Tx),
      (commitTransaction A env tx).1.tcount = env.tcount
    ∧ ((commitTransaction A env tx).1.txs.length = env.txs.length ∧
        (commitTransaction A env tx).1.receipts.length = env.receipts.length
      ∨ (commitTransaction A env tx).1.txs.length = env.txs.length + 1 ∧
        (commitTransaction A env tx).1.receipts.length = env.receipts.length + 1)) := by
  constructor
  · have hfold : ∀ (ops : List EnvOp) (env : Environment), EnvCounts env →
        EnvCounts (runEnvOps env ops) := by
      intro ops
      induction ops with
      | nil => intro env h; exact h
      | cons op rest ihop =>
        intro env h
        have hstep : EnvCounts (applyEnvOp env op) := by
          cases op with
          | commitTxs A isEIP155 running txs interrupt =>
            exact EnvCounts_commitTransactions A isEIP155 running txs interrupt env h
          | copyEnv => exact EnvCounts_copy env h
        simpa [runEnvOps, List.foldl_cons] using ihop (applyEnvOp env op) hstep
    exact hfold ops _ (EnvCounts_makeEnv signer st header coinbase ancestorBlocks)
  · intro A env tx
    cases tx with
    | none => simp [commitTransaction]
    | some tx =>
      rcases hA : A env.state (poolGas env) tx with ⟨s', p', rcpt⟩ | ⟨e, s', p'⟩ <;>
        simp [commitTransaction, hA]

/-- Witness for C2 (amended): a concrete two-round sequence with a copy in
between keeps the three counters equal. -/
theorem env_counts_invariant_witness :
    EnvCounts (runEnvOps (makeEnv 0 0 ⟨0, 0, 100000, 0, 3⟩ 0 [])
      [.commitTxs (fun s p tx => .ok s p ⟨[tx.id], 21000⟩) (fun _ => true) false
        ⟨[[⟨1, false⟩, ⟨2, false⟩]]⟩ none,
       .copyEnv]) :=
  (env_counts_invariant 0 0 ⟨0, 0, 100000, 0, 3⟩ 0 []
    [.commitTxs (fun s p tx => .ok s p ⟨[tx.id], 21000⟩) (fun _ => true) false
      ⟨[[⟨1, false⟩, ⟨2, false⟩]]⟩ none,
     .copyEnv]).1


/-! ## Claim C9 -/

theorem getD_append_length (l : List ℕ) (x : ℕ) :
    (l ++ [x]).getD l.length 0 = x := by
  induction l with
  | nil => rfl
  | cons a as ihas => simp [ihas]

theorem getD_append_lt (l l2 : List ℕ) (i : ℕ) (hi : i < l.length) :
    (l ++ l2).getD i 0 = l.getD i 0 := by
  induction l generalizing i with
  | nil => exact absurd hi (Nat.not_lt_zero _)
  | cons a as ihas =>
    cases i with
    | zero => rfl
    | succ j => simpa using ihas j (by simpa using hi)

theorem getD_set_ne (l : List ℕ) (i j v : ℕ) (hij : i ≠ j) :
    (l.set i v).getD j 0 = l.getD j 0 := by
  induction l generalizing i j with
  | nil => simp
  | cons a as ihas =>
    cases i with
    | zero =>
      cases j with
      | zero => exact absurd rfl hij
      | succ j2 => simp
    | succ i2 =>
      cases j with
      | zero => simp
      | succ j2 => simpa using ihas i2 j2 (fun hh => hij (by rw [hh]))

theorem StateHeap.copyState_fst_read_new (h : StateHeap) (r : ℕ) :
    (h.copyState r).1.read h.vals.length = h.read r :=
  getD_append_length h.vals (h.read r)

theorem StateHeap.copyState_fst_read_old (h : StateHeap) (r i : ℕ)
    (hi : i < h.vals.length) : (h.copyState r).1.read i = h.read i :=
  getD_append_lt h.vals [h.read r] i hi

theorem StateHeap.copyState_fst_length (h : StateHeap) (r : ℕ) :
    (h.copyState r).1.vals.length = h.vals.length + 1 := by
  simp [StateHeap.copyState]

theorem StateHeap.write_read_ne (h : StateHeap) (i j v : ℕ) (hij : i ≠ j) :
    (h.write i v).read j = h.read j :=
  getD_set_ne h.vals i j v hij

theorem StateHeap.write_length (h : StateHeap) (i v : ℕ) :
    (h.write i v).vals.length = h.vals.length := by
  simp [StateHeap.write]

/-- Computed form of `updateSnapshot`: the published worker and the heap after the
state copy. -/
theorem updateSnapshot_eq (w : Worker) (env : Environment) (h : StateHeap) :
    updateSnapshot w env h =
      ({ snapshotBlock := some (NewBlock env.header env.txs env.unclelist env.receipts)
         snapshotReceipts := copyReceipts env.receipts
         snapshotState := some h.vals.length },
       (h.copyState env.state).1) := rfl

/-- Computed form of `pending`, when a snapshot state exists. -/
theorem pending_some (w : Worker) (h : StateHeap) (r : ℕ)
    (hw : w.snapshotState = some r) :
    pending w h = (w.snapshotBlock, some h.vals.length, (h.copyState r).1) := by
  simp [pending, hw, StateHeap.copyState]

/-- Claim C9: the published snapshot is referentially independent of both
the environment and callers.  `updateSnapshot` stores a block rebuilt from
the environment's header/txs/uncles/receipts, a copy of the receipts, and
a fresh copy of the state (a reference distinct from the environment's);
`pending` hands out a fresh copy of the snapshot state; and mutating
either the environment's state or the state returned by `pending` leaves
every subsequent snapshot read — including the state a later `pending`
returns — unchanged. -/
theorem snapshot_referentially_independent (w : Worker) (env : Environment)
    (h : StateHeap) (hv : env.state < h.vals.length) :
    (updateSnapshot w env h).1.snapshotBlock =
      some (NewBlock env.header env.txs env.unclelist env.receipts)
  ∧ (updateSnapshot w env h).1.snapshotReceipts = copyReceipts env.receipts
  ∧ (updateSnapshot w env h).1.snapshotState = some h.vals.length
  ∧ h.vals.length ≠ env.state
  ∧ (updateSnapshot w env h).2.read h.vals.length = h.read env.state
  ∧ (∀ v, ((updateSnapshot w env h).2.write env.state v).read h.vals.length =
      h.read env.state)
  ∧ (pending (updateSnapshot w env h).1 (updateSnapshot w env h).2).2.1 =
      some (h.vals.length + 1)
  ∧ (pending (updateSnapshot w env h).1 (updateSnapshot w env h).2).2.2.read
      (h.vals.length + 1) = h.read env.state
  ∧ (∀ v, ((pending (updateSnapshot w env h).1 (updateSnapshot w env h).2).2.2.write
        (h.vals.length + 1) v).read h.vals.length = h.read env.state)
  ∧ (∀ v,
      (pending (updateSnapshot w env h).1
        ((pending (updateSnapshot w env h).1 (updateSnapshot w env h).2).2.2.write
          (h.vals.length + 1) v)).2.2.read
        (((pending (updateSnapshot w env h).1
          ((pending (updateSnapshot w env h).1 (updateSnapshot w env h).2).2.2.write
            (h.vals.length + 1) v)).2.1).getD 0) = h.read env.state) := by
  have hne : h.vals.length ≠ env.state := Nat.ne_of_gt hv
  simp only [updateSnapshot_eq]
  rw [pending_some _ _ h.vals.length rfl]
  have hlen1 : (h.copyState env.state).1.vals.length = h.vals.length + 1 :=
    h.copyState_fst_length env.state
  refine ⟨trivial, trivial, trivial, hne, h.copyState_fst_read_new env.state,
    ?_, ?_, ?_, ?_, ?_⟩
  · intro v
    rw [(h.copyState env.state).1.write_read_ne env.state h.vals.length v
      (Nat.ne_of_lt hv)]
    exact h.copyState_fst_read_new env.state
  · rw [hlen1]
  · rw [← hlen1]
    rw [(h.copyState env.state).1.copyState_fst_read_new h.vals.length]
    exact h.copyState_fst_read_new env.state
  · intro v
    rw [← hlen1]
    rw [((h.copyState env.state).1.copyState h.vals.length).1.write_read_ne
      (h.copyState env.state).1.vals.length h.vals.length v
      (by rw [hlen1]; exact Nat.succ_ne_self _)]
    rw [(h.copyState env.state).1.copyState_fst_read_old h.vals.length h.vals.length
      (by rw [hlen1]; exact Nat.lt_succ_self _)]
    exact h.copyState_fst_read_new env.state
  · intro v
    rw [← hlen1]
    rw [pending_some _ _ h.vals.length rfl]
    simp only [Option.getD_some]
    set hv2 := (((h.copyState env.state).1.copyState h.vals.length).1.write
      (h.copyState env.state).1.vals.length v) with hhv2
    rw [hv2.copyState_fst_read_new h.vals.length]
    rw [hhv2]
    rw [((h.copyState env.state).1.copyState h.vals.length).1.write_read_ne
      (h.copyState env.state).1.vals.length h.vals.length v
      (by rw [hlen1]; exact Nat.succ_ne_self _)]
    rw [(h.copyState env.state).1.copyState_fst_read_old h.vals.length h.vals.length
      (by rw [hlen1]; exact Nat.lt_succ_self _)]
    exact h.copyState_fst_read_new env.state

/-- Witness for C9: mutating the state returned by `pending` on a concrete
two-cell heap leaves the snapshot's copy unchanged. -/
theorem snapshot_referentially_independent_witness :
    ((updateSnapshot initialWorker (makeEnv 0 0 ⟨0, 0, 0, 0, 0⟩ 0 []) ⟨[3, 4]⟩).2.write
      (makeEnv 0 0 ⟨0, 0, 0, 0, 0⟩ 0 []).state 99).read 2 = 3 :=
  (snapshot_referentially_independent initialWorker
    (makeEnv 0 0 ⟨0, 0, 0, 0, 0⟩ 0 []) ⟨[3, 4]⟩ (by decide)).2.2.2.2.2.1 99

end GoQuaiWorker
